import Mathlib

/-
  Verification development for the geo-ml regression-kriging workflow
  (notebooks/practice-exercise-1.ipynb and the regression-kriging notebook).

  The notebooks call third-party numerical primitives (train_test_split,
  StandardScaler, vario_estimate, RegressionKriging).  Those primitives are
  not part of this repository, so they are modelled here from the written
  specification of the workflow; the data-acquisition cell is repository
  code and is embedded directly.  Machine floating-point is modelled by
  exact rationals, and irrational primitives (square root, great-circle
  trigonometry) are abstract function parameters.
-/

namespace GeoML

/-! ## Splitter -/

/-- A linear congruential step, the deterministic pseudo-random driver of the
modelled shuffler.  The concrete constants are irrelevant to every claim. -/
def lcg (s : Nat) : Nat := (1664525 * s + 1013904223) % 4294967296

/-- Modelled from the spec: the random permutation underlying
train_test_split (scikit-learn is not part of the repository).  A
deterministic seed drives a sequence of uniform index draws; at each step one
remaining element is selected, giving a simple random sample without
replacement. -/
def shuffleIdx : Nat → List Nat → List Nat
  | _, [] => []
  | s, a :: t =>
    let k := lcg s % (a :: t).length
    have hk : k < (a :: t).length := Nat.mod_lt _ (Nat.succ_pos t.length)
    (a :: t)[k] :: shuffleIdx (lcg s) ((a :: t).eraseIdx k)
termination_by _ l => l.length
decreasing_by
  simp only [List.length_eraseIdx, if_pos hk]
  exact Nat.sub_lt (Nat.succ_pos t.length) Nat.one_pos

/-- Modelled from the spec: the number of test records for test fraction p,
approximately p times n. -/
def test_count (n : Nat) (p : ℚ) : Nat := (Int.toNat ⌈p * (n : ℚ)⌉)

/-- Modelled from the spec: the index partition produced by
train_test_split for n records, test fraction p and a deterministic seed.
Returns (train indices, test indices): the seed-shuffled list of all indices
is cut once, the first block becoming the test set. -/
def split_indices (n : Nat) (p : ℚ) (seed : Nat) : List Nat × List Nat :=
  let perm := shuffleIdx seed (List.range n)
  let t := test_count n p
  (perm.drop t, perm.take t)

/-- Select the entries of a list at a given list of indices (out-of-range
indices select nothing). -/
def select (l : List α) (idx : List Nat) : List α := idx.filterMap (fun i => l[i]?)

/-- Modelled from the spec: train_test_split(X, pos, y, test_size, random_state)
as called in the notebook.  One index partition, derived from the seed alone,
is applied simultaneously to the predictor matrix, the coordinate array and
the target vector. -/
def train_test_split (X : List (List ℚ)) (pos : List (ℚ × ℚ)) (y : List ℚ)
    (p : ℚ) (seed : Nat) :
    List (List ℚ) × List (List ℚ) × List (ℚ × ℚ) × List (ℚ × ℚ) × List ℚ × List ℚ :=
  let idx := split_indices X.length p seed
  (select X idx.1, select X idx.2, select pos idx.1, select pos idx.2,
   select y idx.1, select y idx.2)

/-! ## Standardizer -/

/-- Mean of column j of a row-major matrix (rows of equal length in intended
use; short rows contribute 0 for the missing entry). -/
def col_mean (X : List (List ℚ)) (j : Nat) : ℚ :=
  (X.map (fun r => r.getD j 0)).sum / (X.length : ℚ)

/-- Population variance of column j of a row-major matrix. -/
def col_var (X : List (List ℚ)) (j : Nat) : ℚ :=
  (X.map (fun r => (r.getD j 0 - col_mean X j) ^ 2)).sum / (X.length : ℚ)

/-- The state of a fitted standard scaler: one mean and one scale per
predictor column. -/
structure ScalerState where
  mean : List ℚ
  scale : List ℚ

/-- Modelled from the spec: StandardScaler().fit(X_train) over m columns
(scikit-learn is not part of the repository).  The scale of a column is the
square root of its variance, a zero-variance column receiving scale 1 so that
transforming never divides by zero.  The square root primitive sqrtf is an
abstract parameter (machine sqrt is floating point). -/
def standard_scaler_fit (sqrtf : ℚ → ℚ) (m : Nat) (X : List (List ℚ)) : ScalerState :=
  { mean := (List.range m).map (col_mean X),
    scale := (List.range m).map (fun j =>
      if col_var X j = 0 then 1 else sqrtf (col_var X j)) }

/-- Modelled from the spec: scaler.transform(X): subtract the fitted column
mean and divide by the fitted column scale, column-wise. -/
def scaler_transform (s : ScalerState) (X : List (List ℚ)) : List (List ℚ) :=
  X.map (fun r => (r.zip (s.mean.zip s.scale)).map (fun q => (q.1 - q.2.1) / q.2.2))

/-- The notebook scaling step: fit once on the training rows, transform both
the training and the test rows with that single fitted state. -/
def scale_train_test (sqrtf : ℚ → ℚ) (m : Nat) (Xtr Xte : List (List ℚ)) :
    List (List ℚ) × List (List ℚ) :=
  let s := standard_scaler_fit sqrtf m Xtr
  (scaler_transform s Xtr, scaler_transform s Xte)

/-! ## Variogram estimator -/

/-- All unordered pairs of elements of a list, each pair taken with the
earlier element first. -/
def pairsOf : List α → List (α × α)
  | [] => []
  | a :: t => (t.map (fun b => (a, b))) ++ pairsOf t

/-- Half the squared difference of two field values. -/
def semivariance (zi zj : ℚ) : ℚ := (zi - zj) ^ 2 / 2

/-- Modelled from the spec: the geographic metric primitive.  The
great-circle distance on (lon, lat) degree pairs is floating-point
trigonometry in the library, so it enters the model as an abstract function;
what matters to the claims is that this geographic metric, not a planar
Euclidean one, is the distance the estimator buckets by. -/
structure GeoMetric where
  great_circle_dist : (ℚ × ℚ) → (ℚ × ℚ) → ℚ

/-- Modelled from the spec: vario_estimate(pos, data, latlon=True) with
uniform bins (GSTools is not part of the repository).  Every unordered pair
of records is formed; each pair is bucketed by the great-circle distance of
its two coordinates into bins of width bw; bin k covers distances in
[bw*k, bw*(k+1)) and is reported at its centre together with the mean of the
pairwise semivariances falling in it (0 for an empty bin). -/
def vario_estimate (g : GeoMetric) (bw : ℚ) (binCount : Nat)
    (pos : List (ℚ × ℚ)) (z : List ℚ) : List (ℚ × ℚ) :=
  let prs := pairsOf (pos.zip z)
  (List.range binCount).map (fun (k : Nat) =>
    let lo := bw * (k : ℚ)
    let hi := bw * ((k : ℚ) + 1)
    let inBin := prs.filter (fun pr =>
      decide (lo ≤ g.great_circle_dist pr.1.1 pr.2.1) &&
      decide (g.great_circle_dist pr.1.1 pr.2.1 < hi))
    (lo + bw / 2,
     (inBin.map (fun pr => semivariance pr.1.2 pr.2.2)).sum / (inBin.length : ℚ)))

/-! ## Regression-kriging orchestrator -/

/-- The error raised when predicting with a model that has not been fitted. -/
inductive KrigingError where
  | NotFittedError
deriving DecidableEq

/-- Modelled from the spec: the numerical collaborators the orchestrator
composes (PyKrige and the base regressor are not part of the repository).
base_fit trains the base regressor, returning its prediction function on a
single predictor row; vario_est estimates the empirical variogram of a field
at given coordinates; vario_fit fits a parametric (nugget, sill, range)
model; krige interpolates a residual at one query coordinate from the fitted
variogram, the training coordinates and the training residuals. -/
structure RKComponents where
  base_fit : List (List ℚ) → List ℚ → (List ℚ → ℚ)
  vario_est : List (ℚ × ℚ) → List ℚ → List (ℚ × ℚ)
  vario_fit : List (ℚ × ℚ) → ℚ × ℚ × ℚ
  krige : (ℚ × ℚ × ℚ) → List (ℚ × ℚ) → List ℚ → ((ℚ × ℚ) → ℚ)

/-- What a fitted regression-kriging model retains: the trained base
predictor, the training coordinates, the training residuals and the fitted
variogram parameters. -/
structure FittedRK where
  predictor : List ℚ → ℚ
  coords : List (ℚ × ℚ)
  residuals : List ℚ
  vario_params : ℚ × ℚ × ℚ

/-- The lifecycle state of a regression-kriging model. -/
inductive RKState where
  | Unfitted
  | Fitted (m : FittedRK)

/-- Whether a regression-kriging model state is the fitted one. -/
def RKState.isFitted : RKState → Bool
  | .Unfitted => false
  | .Fitted _ => true

/-- Modelled from the spec: a RegressionKriging object, its numerical
collaborators plus its lifecycle state. -/
structure RegressionKriging where
  comps : RKComponents
  state : RKState

/-- Modelled from the spec: the RegressionKriging constructor; a freshly
constructed model is Unfitted. -/
def RegressionKriging.make (comps : RKComponents) : RegressionKriging :=
  { comps := comps, state := .Unfitted }

/-- Modelled from the spec: RegressionKriging.fit(X, coords, y).  Train the
base regressor, compute the residuals of its training predictions, estimate
the empirical variogram of the residuals at the training coordinates, fit
the parametric variogram model, and retain coordinates and residuals in the
Fitted state. -/
def RegressionKriging.fit (rk : RegressionKriging) (X : List (List ℚ))
    (coords : List (ℚ × ℚ)) (y : List ℚ) : RegressionKriging :=
  let f := rk.comps.base_fit X y
  let preds := X.map f
  let residuals := (y.zip preds).map (fun q => q.1 - q.2)
  let emp := rk.comps.vario_est coords residuals
  let vp := rk.comps.vario_fit emp
  { rk with state := .Fitted ⟨f, coords, residuals, vp⟩ }

/-- Modelled from the spec: RegressionKriging.predict(X_query, coords_query).
Unfitted models raise NotFittedError; fitted ones return, per query record,
the base prediction on the predictor row plus the kriged residual at the
corresponding query coordinate. -/
def RegressionKriging.predict (rk : RegressionKriging) (Xq : List (List ℚ))
    (cq : List (ℚ × ℚ)) : Except KrigingError (List ℚ) :=
  match rk.state with
  | .Unfitted => .error .NotFittedError
  | .Fitted m =>
      .ok (((Xq.map m.predictor).zip
            (cq.map (rk.comps.krige m.vario_params m.coords m.residuals))).map
        (fun q => q.1 + q.2))

/-! ## Ordinary-kriging weights -/

/-- Modelled from the spec: the ordinary-kriging system matrix for n
neighbouring training points with pairwise distances d, reading the fitted
variogram through γ.  The first n rows and columns carry the variogram of the
pairwise distances; the final row and column carry the unbiasedness
constraint (ones, with a zero corner). -/
def ok_matrix (n : Nat) (γ : ℚ → ℚ) (d : Fin n → Fin n → ℚ) :
    Matrix (Fin (n + 1)) (Fin (n + 1)) ℚ :=
  Matrix.of fun i j =>
    if hi : (i : Nat) < n then
      if hj : (j : Nat) < n then γ (d ⟨i, hi⟩ ⟨j, hj⟩) else 1
    else if (j : Nat) < n then 1 else 0

/-- Modelled from the spec: the right-hand side of the ordinary-kriging
system, the variogram of the distances dq from the query point to each
neighbour, closed by the constraint entry 1. -/
def ok_rhs (n : Nat) (γ : ℚ → ℚ) (dq : Fin n → ℚ) : Fin (n + 1) → ℚ :=
  fun i => if hi : (i : Nat) < n then γ (dq ⟨i, hi⟩) else 1

/-- Modelled from the spec: solve the ordinary-kriging system for one query
point.  The solution vector holds the n kriging weights followed by the
Lagrange multiplier; a singular system is a recoverable failure (none). -/
def ok_weights (n : Nat) (γ : ℚ → ℚ) (d : Fin n → Fin n → ℚ) (dq : Fin n → ℚ) :
    Option (Fin (n + 1) → ℚ) :=
  let A := ok_matrix n γ d
  if A.det = 0 then none
  else some ((((A.det)⁻¹) • A.adjugate).mulVec (ok_rhs n γ dq))

/-! ## Notebook pipeline and data acquisition -/

/-- Modelled from the spec: the numerical primitives the regression-kriging
notebook draws on, the exploratory full-dataset variogram estimation and
exponential fit kept separate from the orchestrator collaborators. -/
structure NotebookPrimitives where
  sqrtf : ℚ → ℚ
  exploratory_vario : List (ℚ × ℚ) → List ℚ → List (ℚ × ℚ)
  exp_fit : List (ℚ × ℚ) → ℚ × ℚ × ℚ
  rk_comps : RKComponents

/-- The regression-kriging notebook run, cell by cell: exploratory variogram
of the full dataset (diagnostic output only), train/test split, scaling, the
RegressionKriging fit on the scaled training triple, and prediction on the
scaled test records.  Returns the diagnostic pair and the test predictions. -/
def notebook_run (prim : NotebookPrimitives) (X : List (List ℚ))
    (pos : List (ℚ × ℚ)) (y : List ℚ) (p : ℚ) (seed : Nat) (m : Nat) :
    (List (ℚ × ℚ) × (ℚ × ℚ × ℚ)) × Except KrigingError (List ℚ) :=
  let emp_v := prim.exploratory_vario pos y
  let exp_params := prim.exp_fit emp_v
  let split := train_test_split X pos y p seed
  let Xtr := split.1
  let Xte := split.2.1
  let ptr := split.2.2.1
  let pte := split.2.2.2.1
  let ytr := split.2.2.2.2.1
  let s := standard_scaler_fit prim.sqrtf m Xtr
  let Xtrs := scaler_transform s Xtr
  let Xtes := scaler_transform s Xte
  let m_rk := (RegressionKriging.make prim.rk_comps).fit Xtrs ptr ytr
  ((emp_v, exp_params), m_rk.predict Xtes pte)

/-- The success message printed by the data-acquisition cell. -/
def ok_message : String := "Data download OK"

/-- The retry message printed by the data-acquisition cell. -/
def retry_message : String :=
  "Has a directory called data-geoml been downloaded and placed in your working directory? If not, try re-executing this code chunk"

/-- The observable outcome of running the data-acquisition cell: the final
working-directory listing, the lines printed, and the DATA_PATH value the
following cells receive. -/
structure CellResult where
  listing : List String
  printed : List String
  data_path : String

/-- The data-acquisition cell of the notebooks, embedded from the source.
The working directory listing is the state; the wget and unzip subprocesses
run with captured output and are modelled by their effect on the listing.
If the directory data-geoml is already present nothing runs; otherwise both
subprocesses run and the cell prints the success message exactly when
data-geoml.zip is then present, the retry message otherwise.  In every case
DATA_PATH is set to the current working directory. -/
def data_acquisition_cell (cwd : String) (wget_eff unzip_eff : List String → List String)
    (ls : List String) : CellResult :=
  if "data-geoml" ∈ ls then { listing := ls, printed := [], data_path := cwd }
  else
    let ls1 := unzip_eff (wget_eff ls)
    if "data-geoml.zip" ∈ ls1 then
      { listing := ls1, printed := [ok_message], data_path := cwd }
    else
      { listing := ls1, printed := [retry_message], data_path := cwd }

/-! ## Concrete instances used by the witnesses -/

/-- A concrete, trivial set of orchestrator collaborators. -/
def trivial_comps : RKComponents :=
  { base_fit := fun _ _ => fun _ => 0,
    vario_est := fun _ _ => [],
    vario_fit := fun _ => (0, 0, 0),
    krige := fun _ _ _ => fun _ => 0 }

/-- A concrete regression-kriging model fitted on one training record. -/
def fitted_demo : RegressionKriging :=
  (RegressionKriging.make trivial_comps).fit [[1]] [(0, 0)] [0]

/-- The fitted payload of the concrete model above. -/
def fitted_demo_state : FittedRK :=
  ⟨fun _ => 0, [(0, 0)], [0 - 0], (0, 0, 0)⟩

/-- The residual vector a regression-kriging fit computes: the target values
minus the trained base predictions on the training predictors, elementwise. -/
def residuals_of (rk : RegressionKriging) (X : List (List ℚ)) (y : List ℚ) : List ℚ :=
  (y.zip (X.map (rk.comps.base_fit X y))).map (fun q => q.1 - q.2)

/-- The exact ordinary-kriging weight vector of the one-neighbour demo
system, weight 1 followed by the Lagrange multiplier 5. -/
def demo_weights : Fin 2 → ℚ := fun i => if (i : Nat) = 0 then 1 else 5

/-- Concrete notebook primitives for the witnesses. -/
def prim_a : NotebookPrimitives :=
  { sqrtf := id, exploratory_vario := fun _ _ => [], exp_fit := fun _ => (0, 0, 0),
    rk_comps := trivial_comps }

/-- The same primitives with a different exploratory variogram estimator. -/
def prim_b : NotebookPrimitives :=
  { prim_a with exploratory_vario := fun _ _ => [(1, 1)] }

/-! ## Theorems -/

/-- C4: for every regression-kriging model in the Unfitted state, predict on
any input raises NotFittedError. -/
theorem c4_predict_before_fit (rk : RegressionKriging) (h : rk.state = .Unfitted)
    (Xq : List (List ℚ)) (cq : List (ℚ × ℚ)) :
    rk.predict Xq cq = .error .NotFittedError := by
  unfold RegressionKriging.predict
  rw [h]

/-- Witness for C4: a freshly constructed model is Unfitted and predicting
with it raises NotFittedError. -/
theorem c4_witness :
    (RegressionKriging.make trivial_comps).predict [] [] = .error .NotFittedError :=
  c4_predict_before_fit (RegressionKriging.make trivial_comps) rfl [] []

/-- C6: the split is a deterministic function of its inputs and the seed:
two runs with the same inputs and seed agree, and the index partition is a
function of the record count, the fraction and the seed alone. -/
theorem c6_split_deterministic (X Xb : List (List ℚ)) (pos posb : List (ℚ × ℚ))
    (y yb : List ℚ) (p : ℚ) (seed : Nat) (hlen : X.length = Xb.length)
    (hp0 : 0 < p) (hp1 : p < 1) :
    split_indices X.length p seed = split_indices Xb.length p seed ∧
    train_test_split X pos y p seed = train_test_split X pos y p seed := by
  exact ⟨by rw [hlen], rfl⟩

/-- Witness for C6 at a concrete dataset, fraction and seed. -/
theorem c6_witness :
    split_indices ([[(1 : ℚ)]]).length (1/2) 0 = split_indices ([[(2 : ℚ)]]).length (1/2) 0 ∧
    train_test_split [[(1 : ℚ)]] [((0 : ℚ), (0 : ℚ))] [(1 : ℚ)] (1/2) 0 =
      train_test_split [[(1 : ℚ)]] [((0 : ℚ), (0 : ℚ))] [(1 : ℚ)] (1/2) 0 :=
  c6_split_deterministic [[(1 : ℚ)]] [[(2 : ℚ)]] [((0 : ℚ), (0 : ℚ))] [((0 : ℚ), (0 : ℚ))]
    [(1 : ℚ)] [(1 : ℚ)] (1/2) 0 rfl (by norm_num) (by norm_num)

/-- C9: the exploratory full-dataset variogram and its exponential fit are
never passed to the orchestrator: two notebook runs sharing the scaler
primitive and the orchestrator collaborators but differing arbitrarily in
the exploratory variogram computation produce identical test predictions. -/
theorem c9_no_exploratory_leak (p1 p2 : NotebookPrimitives)
    (hs : p1.sqrtf = p2.sqrtf) (hc : p1.rk_comps = p2.rk_comps)
    (X : List (List ℚ)) (pos : List (ℚ × ℚ)) (y : List ℚ)
    (p : ℚ) (seed : Nat) (m : Nat) :
    (notebook_run p1 X pos y p seed m).2 = (notebook_run p2 X pos y p seed m).2 := by
  simp only [notebook_run, hs, hc]

/-- Witness for C9: two concrete primitive sets differing only in the
exploratory variogram estimator give identical predictions. -/
theorem c9_witness :
    (notebook_run prim_a [] [] [] (1/2) 0 0).2 = (notebook_run prim_b [] [] [] (1/2) 0 0).2 :=
  c9_no_exploratory_leak prim_a prim_b rfl rfl [] [] [] (1/2) 0 0

/-- C10: the data-acquisition cell never raises (it is a total function of
the state): DATA_PATH is always set to the working directory; when the
data-geoml directory is present nothing runs and nothing is printed; when it
is absent the download and unzip effects run, the success message is printed
exactly when data-geoml.zip is then present in the listing, and exactly one
line is printed. -/
theorem c10_data_cell (cwd : String) (wg uz : List String → List String)
    (ls : List String) :
    (data_acquisition_cell cwd wg uz ls).data_path = cwd ∧
    ("data-geoml" ∈ ls → data_acquisition_cell cwd wg uz ls = ⟨ls, [], cwd⟩) ∧
    ("data-geoml" ∉ ls →
      (data_acquisition_cell cwd wg uz ls).listing = uz (wg ls) ∧
      (ok_message ∈ (data_acquisition_cell cwd wg uz ls).printed ↔
        "data-geoml.zip" ∈ uz (wg ls)) ∧
      (data_acquisition_cell cwd wg uz ls).printed.length = 1) := by
  unfold data_acquisition_cell
  by_cases h : "data-geoml" ∈ ls
  · simp [h]
  · by_cases h2 : "data-geoml.zip" ∈ uz (wg ls)
    · simp [h, h2, ok_message]
    · simp [h, h2, ok_message, retry_message]

/-- Witness for C10: with the directory absent and effects that produce the
zip file, the success message is printed and DATA_PATH is the working
directory. -/
theorem c10_witness :
    ok_message ∈ (data_acquisition_cell "/w" (fun l => "data-geoml.zip" :: l) id []).printed ∧
    (data_acquisition_cell "/w" (fun l => "data-geoml.zip" :: l) id []).data_path = "/w" := by
  have h := c10_data_cell "/w" (fun l => "data-geoml.zip" :: l) id []
  exact ⟨((h.2.2 (by simp)).2.1).mpr (by simp), h.1⟩

/-- C1: for every fitted regression-kriging model and every aligned query
batch, predict succeeds and returns, elementwise per query record, the base
prediction on the predictor row plus the kriged residual at the
corresponding query coordinate. -/
theorem c1_predict_elementwise (rk : RegressionKriging) (fm : FittedRK)
    (h : rk.state = .Fitted fm) (Xq : List (List ℚ)) (cq : List (ℚ × ℚ))
    (hlen : cq.length = Xq.length) (i : Nat) (hi : i < Xq.length) :
    ∃ out : List ℚ, rk.predict Xq cq = .ok out ∧ out.length = Xq.length ∧
      out.getD i 0 =
        fm.predictor (Xq.getD i []) +
        rk.comps.krige fm.vario_params fm.coords fm.residuals (cq.getD i (0, 0)) := by
  unfold RegressionKriging.predict
  rw [h]
  refine ⟨_, rfl, ?_, ?_⟩
  · simp [hlen]
  · have hiz : i < (((Xq.map fm.predictor).zip
        (cq.map (rk.comps.krige fm.vario_params fm.coords fm.residuals))).map
          (fun q => q.1 + q.2)).length := by
      simp [hlen]; omega
    have hix : i < (Xq.map fm.predictor).length := by simpa using hi
    have hic : i < (cq.map (rk.comps.krige fm.vario_params fm.coords fm.residuals)).length := by
      simp [hlen]; omega
    rw [List.getD_eq_getElem _ _ hiz, List.getElem_map, List.getElem_zip,
      List.getElem_map, List.getElem_map]
    rw [List.getD_eq_getElem _ _ hi, List.getD_eq_getElem]

/-- Witness for C1 on a concrete fitted model and a one-record query. -/
theorem c1_witness :
    ∃ out : List ℚ, fitted_demo.predict [[3]] [(1, 1)] = .ok out ∧
      out.length = ([[(3 : ℚ)]] : List (List ℚ)).length ∧
      out.getD 0 0 =
        fitted_demo_state.predictor (([[(3 : ℚ)]] : List (List ℚ)).getD 0 []) +
        fitted_demo.comps.krige fitted_demo_state.vario_params fitted_demo_state.coords
          fitted_demo_state.residuals (([((1 : ℚ), (1 : ℚ))] : List (ℚ × ℚ)).getD 0 (0, 0)) :=
  c1_predict_elementwise fitted_demo fitted_demo_state rfl [[3]] [(1, 1)] rfl 0 (by decide)

/-- C2: fit trains the base regressor on the training pair, computes the
residuals as the targets minus the base predictions on the training
predictors (elementwise), estimates the empirical variogram of those
residuals at the training coordinates, fits the parametric variogram model
to it, retains the training coordinates and residuals, and leaves the model
in the Fitted state with its collaborators unchanged. -/
theorem c2_fit_steps (rk : RegressionKriging) (X : List (List ℚ))
    (coords : List (ℚ × ℚ)) (y : List ℚ) :
    (rk.fit X coords y).state =
      .Fitted ⟨rk.comps.base_fit X y, coords, residuals_of rk X y,
        rk.comps.vario_fit (rk.comps.vario_est coords (residuals_of rk X y))⟩ ∧
    (∀ i, i < y.length → i < X.length →
      (residuals_of rk X y).getD i 0 =
        y.getD i 0 - rk.comps.base_fit X y (X.getD i [])) ∧
    (residuals_of rk X y).length = min y.length X.length ∧
    (rk.fit X coords y).state.isFitted = true ∧
    (rk.fit X coords y).comps = rk.comps := by
  refine ⟨rfl, ?_, by simp [residuals_of], rfl, rfl⟩
  intro i hy hx
  have hz : i < ((y.zip (X.map (rk.comps.base_fit X y))).map
      (fun q => q.1 - q.2)).length := by simp; omega
  unfold residuals_of
  rw [List.getD_eq_getElem _ _ hz, List.getElem_map, List.getElem_zip, List.getElem_map,
    List.getD_eq_getElem _ _ hy, List.getD_eq_getElem _ _ hx]

/-- Witness for C2 on a concrete one-record fit. -/
theorem c2_witness :
    (residuals_of (RegressionKriging.make trivial_comps) [[1]] [0]).getD 0 0 =
      ([(0 : ℚ)] : List ℚ).getD 0 0 -
        (RegressionKriging.make trivial_comps).comps.base_fit [[1]] [0]
          (([[(1 : ℚ)]] : List (List ℚ)).getD 0 []) ∧
    ((RegressionKriging.make trivial_comps).fit [[1]] [(0, 0)] [0]).state.isFitted = true := by
  have h := c2_fit_steps (RegressionKriging.make trivial_comps) [[1]] [(0, 0)] [0]
  exact ⟨h.2.1 0 (by decide) (by decide), h.2.2.2.1⟩

/-- The modelled shuffler permutes its input. -/
theorem shuffleIdx_perm (s : Nat) (l : List Nat) : (shuffleIdx s l).Perm l := by
  have H : ∀ (n : Nat) (s : Nat) (l : List Nat), l.length = n → (shuffleIdx s l).Perm l := by
    intro n
    induction n using Nat.strong_induction_on with
    | _ n ih =>
      intro s l hl
      cases l with
      | nil => simp [shuffleIdx]
      | cons a t =>
        rw [shuffleIdx]
        have hklt : lcg s % (a :: t).length < (a :: t).length :=
          Nat.mod_lt _ (Nat.succ_pos t.length)
        have h1 : ((a :: t).eraseIdx (lcg s % (a :: t).length)).length < n := by
          have := List.length_eraseIdx_add_one hklt
          omega
        have hrec := ih _ h1 (lcg s) _ rfl
        refine List.Perm.trans (List.Perm.cons _ hrec) ?_
        exact ((List.perm_cons_erase (List.getElem_mem hklt)).trans
          (List.Perm.cons _ (List.erase_getElem hklt))).symm
  exact H l.length s l rfl

/-- The index lists produced by the modelled split are a cut of one
seed-determined permutation of all record indices. -/
theorem split_indices_perm (n : Nat) (p : ℚ) (seed : Nat) :
    ((split_indices n p seed).1 ++ (split_indices n p seed).2).Perm (List.range n) := by
  unfold split_indices
  refine List.Perm.trans List.perm_append_comm ?_
  rw [List.take_append_drop]
  exact shuffleIdx_perm seed (List.range n)

/-- C5: the split produces two disjoint index lists that together cover all
record indices, and the very same index partition is applied simultaneously
to the predictor matrix, the coordinate array and the target vector. -/
theorem c5_split_alignment (X : List (List ℚ)) (pos : List (ℚ × ℚ)) (y : List ℚ)
    (p : ℚ) (seed : Nat) :
    ((split_indices X.length p seed).1).Disjoint (split_indices X.length p seed).2 ∧
    ((split_indices X.length p seed).1 ++ (split_indices X.length p seed).2).Perm
      (List.range X.length) ∧
    train_test_split X pos y p seed =
      (select X (split_indices X.length p seed).1,
       select X (split_indices X.length p seed).2,
       select pos (split_indices X.length p seed).1,
       select pos (split_indices X.length p seed).2,
       select y (split_indices X.length p seed).1,
       select y (split_indices X.length p seed).2) := by
  refine ⟨?_, split_indices_perm X.length p seed, rfl⟩
  have hnd : (shuffleIdx seed (List.range X.length)).Nodup :=
    (shuffleIdx_perm seed (List.range X.length)).symm.nodup (List.nodup_range _)
  exact (List.disjoint_take_drop hnd (le_refl _)).symm

/-- C7: the scaler state is computed from the training rows only and the
single fitted state transforms both the training and the test matrix;
transform returns, column-wise, the entry minus the fitted column mean
divided by the fitted column scale; a zero-variance training column gets
scale 1, so its transform is the centered constant and no division by zero
occurs. -/
theorem c7_scaler (sqrtf : ℚ → ℚ) (m : Nat) (Xtr Xte M : List (List ℚ)) (i j : Nat)
    (hi : i < M.length) (hj : j < (M.getD i []).length) (hjm : j < m) :
    scale_train_test sqrtf m Xtr Xte =
      (scaler_transform (standard_scaler_fit sqrtf m Xtr) Xtr,
       scaler_transform (standard_scaler_fit sqrtf m Xtr) Xte) ∧
    ((scaler_transform (standard_scaler_fit sqrtf m Xtr) M).getD i []).getD j 0 =
      ((M.getD i []).getD j 0 - col_mean Xtr j) /
        (if col_var Xtr j = 0 then 1 else sqrtf (col_var Xtr j)) ∧
    (col_var Xtr j = 0 →
      ((scaler_transform (standard_scaler_fit sqrtf m Xtr) M).getD i []).getD j 0 =
        (M.getD i []).getD j 0 - col_mean Xtr j) := by
  have hMi : M.getD i [] = M[i] := List.getD_eq_getElem _ _ hi
  have hj' : j < (M[i]).length := by rw [hMi] at hj; exact hj
  have key : ((scaler_transform (standard_scaler_fit sqrtf m Xtr) M).getD i []).getD j 0 =
      ((M.getD i []).getD j 0 - col_mean Xtr j) /
        (if col_var Xtr j = 0 then 1 else sqrtf (col_var Xtr j)) := by
    have h1 : i < (scaler_transform (standard_scaler_fit sqrtf m Xtr) M).length := by
      simpa [scaler_transform] using hi
    rw [List.getD_eq_getElem _ _ h1]
    simp only [scaler_transform, List.getElem_map]
    have hjz : j < ((M[i].zip ((standard_scaler_fit sqrtf m Xtr).mean.zip
        (standard_scaler_fit sqrtf m Xtr).scale)).map
          (fun q => (q.1 - q.2.1) / q.2.2)).length := by
      simp [standard_scaler_fit]
      omega
    rw [List.getD_eq_getElem _ _ hjz, List.getElem_map, List.getElem_zip, List.getElem_zip]
    simp only [standard_scaler_fit, List.getElem_map, List.getElem_range]
    rw [hMi, List.getD_eq_getElem _ _ hj']
  refine ⟨rfl, key, ?_⟩
  intro h0
  rw [key, if_pos h0, div_one]

/-- Witness for C7 on a concrete two-row training matrix and a one-record
query matrix. -/
theorem c7_witness :
    ((scaler_transform (standard_scaler_fit id 1 [[1], [3]]) [[5]]).getD 0 []).getD 0 0 =
      ((([[(5 : ℚ)]] : List (List ℚ)).getD 0 []).getD 0 0 - col_mean [[1], [3]] 0) /
        (if col_var [[1], [3]] 0 = 0 then 1 else id (col_var [[1], [3]] 0)) :=
  (c7_scaler id 1 [[1], [3]] [[5]] [[5]] 0 0 (by decide) (by decide) (by decide)).2.1

/-- Membership in the unordered-pair list: exactly the pairs of entries at
index positions i < j. -/
theorem mem_pairsOf {α : Type} (l : List α) (d : α) (p : α × α) :
    p ∈ pairsOf l ↔
      ∃ i j, i < j ∧ j < l.length ∧ p = (l.getD i d, l.getD j d) := by
  induction l with
  | nil => simp [pairsOf]
  | cons a t ih =>
    simp only [pairsOf, List.mem_append, List.mem_map]
    constructor
    · rintro (⟨b, hb, rfl⟩ | hp)
      · obtain ⟨jb, hjb, rfl⟩ := List.getElem_of_mem hb
        refine ⟨0, jb + 1, Nat.succ_pos _, by simpa using hjb, ?_⟩
        simp [List.getD, List.getElem?_eq_getElem hjb]
      · obtain ⟨i, j, hij, hj, rfl⟩ := ih.mp hp
        refine ⟨i + 1, j + 1, by omega, by simpa using hj, ?_⟩
        simp
    · rintro ⟨i, j, hij, hj, rfl⟩
      cases i with
      | zero =>
        left
        cases j with
        | zero => omega
        | succ j' =>
          have hj1 : j' < t.length := by simpa using hj
          refine ⟨t.getD j' d, ?_, ?_⟩
          · rw [List.getD_eq_getElem _ _ hj1]
            exact List.getElem_mem hj1
          · simp
      | succ i' =>
        right
        apply ih.mpr
        cases j with
        | zero => omega
        | succ j' =>
          refine ⟨i', j', by omega, by simpa using hj, ?_⟩
          simp

/-- The bin record the variogram estimator places at position k. -/
theorem vario_getD (g : GeoMetric) (bw : ℚ) (m : Nat) (pos : List (ℚ × ℚ))
    (z : List ℚ) (k : Nat) (hk : k < m) :
    (vario_estimate g bw m pos z).getD k (0, 0) =
      (bw * (k : ℚ) + bw / 2,
       (((pairsOf (pos.zip z)).filter (fun pr =>
           decide (bw * (k : ℚ) ≤ g.great_circle_dist pr.1.1 pr.2.1) &&
           decide (g.great_circle_dist pr.1.1 pr.2.1 < bw * ((k : ℚ) + 1)))).map
         (fun pr => semivariance pr.1.2 pr.2.2)).sum /
       ((((pairsOf (pos.zip z)).filter (fun pr =>
           decide (bw * (k : ℚ) ≤ g.great_circle_dist pr.1.1 pr.2.1) &&
           decide (g.great_circle_dist pr.1.1 pr.2.1 < bw * ((k : ℚ) + 1)))).length : ℚ))) := by
  have key : ∀ (f : Nat → ℚ × ℚ), ((List.range m).map f).getD k (0, 0) = f k := by
    intro f
    have hkl : k < ((List.range m).map f).length := by simpa using hk
    rw [List.getD_eq_getElem _ _ hkl, List.getElem_map, List.getElem_range]
  simp only [vario_estimate]
  exact key _

/-- C8: the variogram estimator returns one record per bin; the record of
bin k carries the bin-centre distance; the centres are strictly ordered; the
semivariance of bin k is the mean of half the squared field differences over
the pairs whose great-circle distance falls in the bin; and the pairs ranged
over are exactly the unordered pairs of records at positions i < j. -/
theorem c8_vario_estimate (g : GeoMetric) (bw : ℚ) (m : Nat) (pos : List (ℚ × ℚ))
    (z : List ℚ) (hbw : 0 < bw) (k : Nat) (hk : k < m) :
    (vario_estimate g bw m pos z).length = m ∧
    ((vario_estimate g bw m pos z).getD k (0, 0)).1 = bw * (k : ℚ) + bw / 2 ∧
    (∀ k2, k < k2 → k2 < m →
      ((vario_estimate g bw m pos z).getD k (0, 0)).1 <
        ((vario_estimate g bw m pos z).getD k2 (0, 0)).1) ∧
    ((vario_estimate g bw m pos z).getD k (0, 0)).2 =
      (((pairsOf (pos.zip z)).filter (fun pr =>
          decide (bw * (k : ℚ) ≤ g.great_circle_dist pr.1.1 pr.2.1) &&
          decide (g.great_circle_dist pr.1.1 pr.2.1 < bw * ((k : ℚ) + 1)))).map
        (fun pr => semivariance pr.1.2 pr.2.2)).sum /
      ((((pairsOf (pos.zip z)).filter (fun pr =>
          decide (bw * (k : ℚ) ≤ g.great_circle_dist pr.1.1 pr.2.1) &&
          decide (g.great_circle_dist pr.1.1 pr.2.1 < bw * ((k : ℚ) + 1)))).length : ℚ)) ∧
    (∀ pr : ((ℚ × ℚ) × ℚ) × ((ℚ × ℚ) × ℚ), pr ∈ pairsOf (pos.zip z) ↔
      ∃ i j, i < j ∧ j < (pos.zip z).length ∧
        pr = ((pos.zip z).getD i ((0, 0), 0), (pos.zip z).getD j ((0, 0), 0))) := by
  refine ⟨by simp only [vario_estimate, List.length_map, List.length_range], ?_, ?_, ?_,
    fun pr => mem_pairsOf _ _ pr⟩
  · rw [vario_getD g bw m pos z k hk]
  · intro k2 h12 hk2
    rw [vario_getD g bw m pos z k hk, vario_getD g bw m pos z k2 hk2]
    have : bw * (k : ℚ) < bw * (k2 : ℚ) :=
      mul_lt_mul_of_pos_left (by exact_mod_cast h12) hbw
    simpa using this
  · rw [vario_getD g bw m pos z k hk]

/-- Witness for C8 on a concrete two-point dataset with two bins. -/
theorem c8_witness :
    (vario_estimate ⟨fun _ _ => 0⟩ 1 2 [(0, 0), (1, 1)] [0, 2]).length = 2 ∧
    ((vario_estimate ⟨fun _ _ => 0⟩ 1 2 [(0, 0), (1, 1)] [0, 2]).getD 0 (0, 0)).1 =
      1 * ((0 : Nat) : ℚ) + 1 / 2 := by
  have h := c8_vario_estimate ⟨fun _ _ => 0⟩ 1 2 [(0, 0), (1, 1)] [0, 2]
    (by norm_num) 0 (by decide)
  exact ⟨h.1, h.2.1⟩

/-- Any weight vector returned by the ordinary-kriging solver solves the
ordinary-kriging linear system. -/
theorem ok_weights_solve (n : Nat) (γ : ℚ → ℚ) (d : Fin n → Fin n → ℚ)
    (dq : Fin n → ℚ) (w : Fin (n + 1) → ℚ)
    (hw : ok_weights n γ d dq = some w) :
    (ok_matrix n γ d).mulVec w = ok_rhs n γ dq := by
  unfold ok_weights at hw
  by_cases h : (ok_matrix n γ d).det = 0
  · simp [h] at hw
  · simp only [h, if_false] at hw
    have hw' : w = (((ok_matrix n γ d).det)⁻¹ •
        (ok_matrix n γ d).adjugate).mulVec (ok_rhs n γ dq) := (Option.some.inj hw).symm
    rw [hw', Matrix.mulVec_mulVec, Matrix.mul_smul, Matrix.mul_adjugate, smul_smul,
      inv_mul_cancel₀ h, one_smul, Matrix.one_mulVec]

/-- C3: whenever the ordinary-kriging system for a single query point is
solvable, the returned kriging weights over the neighbouring training
residuals sum to 1 (the unbiasedness constraint row). -/
theorem c3_weights_sum_one (n : Nat) (γ : ℚ → ℚ) (d : Fin n → Fin n → ℚ)
    (dq : Fin n → ℚ) (w : Fin (n + 1) → ℚ)
    (hw : ok_weights n γ d dq = some w) :
    (∑ i : Fin n, w i.castSucc) = 1 := by
  have hsolve := ok_weights_solve n γ d dq w hw
  have hlast := congrFun hsolve (Fin.last n)
  rw [Matrix.mulVec] at hlast
  simp only [Matrix.dotProduct] at hlast
  have hrhs : ok_rhs n γ dq (Fin.last n) = 1 := by
    simp [ok_rhs, Fin.val_last]
  have hrow : ∀ j : Fin (n + 1),
      ok_matrix n γ d (Fin.last n) j = if (j : Nat) < n then 1 else 0 := by
    intro j
    simp [ok_matrix, Fin.val_last]
  rw [hrhs] at hlast
  calc (∑ i : Fin n, w i.castSucc)
      = ∑ j : Fin (n + 1), ok_matrix n γ d (Fin.last n) j * w j := by
        rw [Fin.sum_univ_castSucc]
        have hz : ok_matrix n γ d (Fin.last n) (Fin.last n) * w (Fin.last n) = 0 := by
          rw [hrow]
          simp
        rw [hz, add_zero]
        refine Finset.sum_congr rfl (fun j _ => ?_)
        rw [hrow]
        simp [Fin.coe_castSucc, j.isLt]
    _ = 1 := hlast

/-- Witness for C3: the one-neighbour demo system is solvable and its
returned weight vector sums to 1 over the residual weights. -/
theorem c3_witness : (∑ i : Fin 1, demo_weights i.castSucc) = 1 := by
  apply c3_weights_sum_one 1 (fun x => x) (fun _ _ => 0) (fun _ => 5) demo_weights
  have hA : ok_matrix 1 (fun x => x) (fun _ _ => 0) = !![0, 1; 1, 0] := by
    ext i j
    fin_cases i <;> fin_cases j <;> simp [ok_matrix]
  simp only [ok_weights, hA]
  rw [Matrix.det_fin_two_of, Matrix.adjugate_fin_two_of]
  norm_num
  funext i
  fin_cases i <;>
    simp [Matrix.mulVec, Matrix.dotProduct, ok_rhs, demo_weights,
      Matrix.vecHead, Matrix.vecTail, Function.comp, Fin.sum_univ_two]

end GeoML
